import Mathlib

/-!
Verification of the clinic patient-registry core: the in-memory patient
store (`backend/internal/database/mock.go`) and the field
validation/normalization functions of the intake form
(`frontend/src/app/add-patient/page.tsx`), shallowly embedded in Lean.

Strings are modelled by Lean `String` (a wrapper around `List Char`);
Go `time.Time` values are modelled by natural-number instants; Go map
operations are modelled by association lists keyed by the `hn` string.
-/

deriving instance DecidableEq for Except

namespace Clinic

/-- Patient record (`database.Patient` as used by the mock repository). -/
structure Patient where
  hn : String
  fullName : String
  gender : String
  nickname : Option String
  phone : Option String
  age : Int
  dateOfBirth : Option String
  photo : Option String
  createdAt : Nat
  updatedAt : Nat
deriving Repr, DecidableEq

/-- Store state: the `patients map[string]*Patient` collection, as an
association list from `hn` keys to records. -/
abbrev Store := List (String × Patient)

/-- Errors returned by the mock repository. -/
inductive StoreError where
  | alreadyExists
  | notFound
deriving Repr, DecidableEq

/-- Map lookup: `r.patients[k]`. -/
def lookup : Store → String → Option Patient
  | [], _ => none
  | e :: es, k => if e.1 = k then some e.2 else lookup es k

/-- Map removal: `delete(r.patients, k)`. -/
def eraseKey (k : String) : Store → Store
  | [] => []
  | e :: es => if e.1 = k then eraseKey k es else e :: eraseKey k es

/-- Map assignment at an existing key (the `Update` method mutates the
stored record through its pointer, i.e. replaces the value at the key). -/
def setKey (k : String) (v : Patient) : Store → Store
  | [] => []
  | e :: es => if e.1 = k then (k, v) :: setKey k v es else e :: setKey k v es

/-- Left-pad a character list with `'0'` to width `w`
(JS `String.padStart(w, '0')`, also Go `%0wd` padding). -/
def padZeros (w : Nat) (l : List Char) : List Char :=
  List.replicate (w - l.length) '0' ++ l

/-- Decimal rendering of a Go `int`, zero-padded to width 6:
`fmt.Sprintf("%06d", n)` (for negative values the sign counts toward
the width, as in Go). -/
def sprintf06 (n : Int) : List Char :=
  if n < 0 then '-' :: padZeros 5 (Nat.toDigits 10 n.natAbs)
  else padZeros 6 (Nat.toDigits 10 n.toNat)

/-- The key string `fmt.Sprintf("HN%06d", id)` used by `GetByID` and
`Delete` to address the map. -/
def hnKey (id : Int) : String := ⟨'H' :: 'N' :: sprintf06 id⟩

/-- `Create`: fails with `alreadyExists` when the `hn` key is taken,
otherwise assigns `CreatedAt`/`UpdatedAt` (two successive `time.Now()`
reads, modelled by `t1`, `t2`) and stores the record. Returns the stored
record alongside the new state. -/
def create (s : Store) (p : Patient) (t1 t2 : Nat) :
    Except StoreError (Store × Patient) :=
  match lookup s p.hn with
  | some _ => .error .alreadyExists
  | none =>
    let q := { p with createdAt := t1, updatedAt := t2 }
    .ok ((p.hn, q) :: s, q)

/-- `GetByID`: converts the integer id to the `HN%06d` key and looks it up. -/
def getByID (s : Store) (id : Int) : Except StoreError Patient :=
  match lookup s (hnKey id) with
  | some p => .ok p
  | none => .error .notFound

/-- The field-wise mutation performed by `Update` on the stored record:
all mutable fields are replaced from the caller's record, `UpdatedAt`
is set to the current time, `HN` and `CreatedAt` are left untouched. -/
def applyPatch (existing p : Patient) (t : Nat) : Patient :=
  { existing with
    fullName := p.fullName
    gender := p.gender
    nickname := p.nickname
    phone := p.phone
    age := p.age
    dateOfBirth := p.dateOfBirth
    photo := p.photo
    updatedAt := t }

/-- `Update`: fails with `notFound` when the `hn` key is absent, otherwise
replaces the mutable fields of the stored record (time `t` is the
`time.Now()` read). Returns the updated record alongside the new state. -/
def update (s : Store) (p : Patient) (t : Nat) :
    Except StoreError (Store × Patient) :=
  match lookup s p.hn with
  | none => .error .notFound
  | some existing =>
    let upd := applyPatch existing p t
    .ok (setKey p.hn upd s, upd)

/-- `Delete`: converts the integer id to the `HN%06d` key, fails with
`notFound` when absent, otherwise removes the entry. -/
def deleteByID (s : Store) (id : Int) : Except StoreError Store :=
  match lookup s (hnKey id) with
  | none => .error .notFound
  | some _ => .ok (eraseKey (hnKey id) s)

/-- Insertion step of the descending-by-`CreatedAt` ordering produced by
`sort.Slice(..., CreatedAt.After ...)` in `GetAll`. -/
def insertByCreatedAt (p : Patient) : List Patient → List Patient
  | [] => [p]
  | q :: qs =>
    if q.createdAt < p.createdAt then p :: q :: qs
    else q :: insertByCreatedAt p qs

/-- Sort records by `CreatedAt`, newest first (`GetAll`'s `sort.Slice`). -/
def sortByCreatedAtDesc : List Patient → List Patient
  | [] => []
  | p :: ps => insertByCreatedAt p (sortByCreatedAtDesc ps)

/-- `GetAll`: all stored records, sorted by `CreatedAt` descending. -/
def getAll (s : Store) : List Patient :=
  sortByCreatedAtDesc (s.map (·.2))

/-- State after a `Create` call (a failed call leaves the map unchanged). -/
def createStep (s : Store) (p : Patient) (t1 t2 : Nat) : Store :=
  match create s p t1 t2 with
  | .ok r => r.1
  | .error _ => s

/-- State after an `Update` call (a failed call leaves the map unchanged). -/
def updateStep (s : Store) (p : Patient) (t : Nat) : Store :=
  match update s p t with
  | .ok r => r.1
  | .error _ => s

/-- State after a `Delete` call (a failed call leaves the map unchanged). -/
def deleteStep (s : Store) (id : Int) : Store :=
  match deleteByID s id with
  | .ok s' => s'
  | .error _ => s

/-- Well-formedness of a store state: every entry is keyed by its record's
`hn`. `Create` keys each record by its own `hn`, `Update` preserves both,
so every reachable state satisfies this. -/
def Wf (s : Store) : Prop := ∀ e ∈ s, e.2.hn = e.1

instance (s : Store) : Decidable (Wf s) :=
  inferInstanceAs (Decidable (∀ e ∈ s, e.2.hn = e.1))

/-! ### Validation and normalization functions of the intake form -/

/-- Outcome kind of a field validation (`type` of `FieldValidation`). -/
inductive VType where
  | error
  | warning
  | success
deriving Repr, DecidableEq

/-- `FieldValidation` result object of the form's validators. -/
structure FieldValidation where
  isValid : Bool
  message : String
  type : VType
deriving Repr, DecidableEq

/-- `validateAge`: `!age || age === 0` rejects, negative rejects, `>150`
rejects, `>100` accepts with a warning, otherwise accepts. -/
def validateAge (age : Int) : FieldValidation :=
  if age = 0 then ⟨false, "กรุณากรอกอายุ", .error⟩
  else if age < 0 then ⟨false, "อายุต้องเป็นจำนวนบวก", .error⟩
  else if age > 150 then ⟨false, "อายุต้องไม่เกิน 150 ปี", .error⟩
  else if age > 100 then ⟨true, "โปรดตรวจสอบอายุให้ถูกต้อง", .warning⟩
  else ⟨true, "อายุถูกต้อง", .success⟩

/-- JS `replace(/\D/g, '')`: keep only the decimal digits. -/
def stripNonDigits (l : List Char) : List Char := l.filter Char.isDigit

/-- JS `String.startsWith` on character lists. -/
def startsWithL : List Char → List Char → Bool
  | _, [] => true
  | [], _ :: _ => false
  | c :: cs, p :: ps => c = p && startsWithL cs ps

/-- `validatePhone`: empty input passes; otherwise strip non-digits,
reject fewer than 9 or more than 12 digits, accept 10 digits with a
mobile prefix (`06`/`08`/`09`), accept 9 digits starting with `0`,
reject everything else. -/
def validatePhone (phone : String) : FieldValidation :=
  if phone = "" then ⟨true, "", .warning⟩
  else if (stripNonDigits phone.data).length < 9 then
    ⟨false, "เบอร์โทรต้องมีอย่างน้อย 9 หลัก", .error⟩
  else if (stripNonDigits phone.data).length > 12 then
    ⟨false, "เบอร์โทรต้องไม่เกิน 12 หลัก", .error⟩
  else if (stripNonDigits phone.data).length = 10 ∧
      (startsWithL (stripNonDigits phone.data) ['0', '6'] ||
        startsWithL (stripNonDigits phone.data) ['0', '8'] ||
        startsWithL (stripNonDigits phone.data) ['0', '9']) = true then
    ⟨true, "เบอร์มือถือถูกต้อง", .success⟩
  else if (stripNonDigits phone.data).length = 9 ∧
      startsWithL (stripNonDigits phone.data) ['0'] = true then
    ⟨true, "เบอร์บ้านถูกต้อง", .success⟩
  else ⟨false, "รูปแบบเบอร์โทรไม่ถูกต้อง", .error⟩

/-- `formatPhoneNumber`: strip non-digits and re-insert dashes in 3-3-4
grouping (JS `slice` bounds as in the source). -/
def formatPhoneNumber (phone : String) : String :=
  let cleaned := stripNonDigits phone.data
  if cleaned.length ≤ 3 then ⟨cleaned⟩
  else if cleaned.length ≤ 6 then
    ⟨cleaned.take 3 ++ '-' :: cleaned.drop 3⟩
  else if cleaned.length ≤ 10 then
    ⟨cleaned.take 3 ++ '-' :: (cleaned.drop 3).take 3 ++ '-' :: cleaned.drop 6⟩
  else
    ⟨cleaned.take 3 ++ '-' :: (cleaned.drop 3).take 3 ++ '-' :: (cleaned.drop 6).take 4⟩

/-- The character class kept by `formatHN`'s `replace(/[^HN0-9]/g, '')`. -/
def isHN09 (c : Char) : Bool := c = 'H' || c = 'N' || c.isDigit

/-- First two steps of `formatHN`: uppercase and strip characters outside
`[HN0-9]`, then prepend `HN` when the remainder starts with a digit
(`if (cleaned && /^\d/.test(cleaned)) cleaned = 'HN' + cleaned`). -/
def prefixedClean (l : List Char) : List Char :=
  let cleaned := (l.map Char.toUpper).filter isHN09
  match cleaned with
  | [] => cleaned
  | c :: _ => if c.isDigit then 'H' :: 'N' :: cleaned else cleaned

/-- `formatHN` on character lists: after `prefixedClean`, when the result
starts with `HN` truncate the part after the prefix to its first 6
characters; otherwise return it unchanged. -/
def formatHNL (l : List Char) : List Char :=
  if startsWithL (prefixedClean l) ['H', 'N'] then
    if ((prefixedClean l).drop 2).length > 6 then
      'H' :: 'N' :: ((prefixedClean l).drop 2).take 6
    else 'H' :: 'N' :: (prefixedClean l).drop 2
  else prefixedClean l

/-- `formatHN` of the form. -/
def formatHN (s : String) : String := ⟨formatHNL s.data⟩

/-- `addLeadingZeros` on character lists: a value starting with `HN`
whose remainder has 1–5 characters is zero-padded to 6; anything else is
returned unchanged. -/
def addLeadingZerosL (hn : List Char) : List Char :=
  if hn = [] || !startsWithL hn ['H', 'N'] then hn
  else if 0 < (hn.drop 2).length ∧ (hn.drop 2).length < 6 then
    'H' :: 'N' :: padZeros 6 (hn.drop 2)
  else hn

/-- `addLeadingZeros` of the form. -/
def addLeadingZeros (s : String) : String := ⟨addLeadingZerosL s.data⟩

/-- The regular expression `/^HN\d{6}$/` of `validateHN`. -/
def validHNL (hn : List Char) : Bool :=
  startsWithL hn ['H', 'N'] && (hn.drop 2).length = 6 && (hn.drop 2).all Char.isDigit

/-- `validateHN`: empty input rejects, a value not matching `HN` + 6
digits rejects, otherwise accepts. -/
def validateHN (hn : String) : FieldValidation :=
  if hn = "" then ⟨false, "กรุณากรอก HN", .error⟩
  else if !validHNL hn.data then
    ⟨false, "รูปแบบ HN ต้องเป็น HNXXXXXX (6 ตัวเลข)", .error⟩
  else ⟨true, "รูปแบบ HN ถูกต้อง", .success⟩

/-- The hospital-number parse pipeline as the form runs it: `formatHN` on
input change, `addLeadingZeros` on field blur, `validateHN` on submit;
`some` of the normalized value on acceptance, `none` on rejection. -/
def parseHN (raw : String) : Option String :=
  let f := addLeadingZeros (formatHN raw)
  if (validateHN f).isValid then some f else none

/-! ### Concrete records and states used to instantiate the theorems -/

/-- The first sample record seeded by `createSampleData`. -/
def samplePatient : Patient :=
  { hn := "HN000001", fullName := "นายสมชาย ใจดี", gender := "ชาย",
    nickname := some "ชาย", phone := some "081-234-5678", age := 35,
    dateOfBirth := some "1989-03-15", photo := none,
    createdAt := 0, updatedAt := 0 }

/-- A one-record store holding `samplePatient` under its `hn`. -/
def storeA : Store := [("HN000001", samplePatient)]

/-- The record of the end-to-end scenario: `fullName "Somchai Jaidee"`,
`gender "male"`, `age 35`. -/
def patientB : Patient :=
  { hn := "HN000005", fullName := "Somchai Jaidee", gender := "male",
    nickname := none, phone := none, age := 35,
    dateOfBirth := none, photo := none, createdAt := 0, updatedAt := 0 }

/-- The record of the end-to-end scenario after `hn` normalization. -/
def patientC : Patient :=
  { hn := "HN000001", fullName := "Somchai Jaidee", gender := "male",
    nickname := none, phone := none, age := 35,
    dateOfBirth := none, photo := none, createdAt := 0, updatedAt := 0 }

/-- A record carrying a non-canonical `hn` with 7 digits: `%06d` pads
to a minimum of 6 digits, so this string is still a reachable key. -/
def patientE : Patient :=
  { hn := "HN1234567", fullName := "Somchai Jaidee", gender := "male",
    nickname := none, phone := none, age := 35,
    dateOfBirth := none, photo := none, createdAt := 0, updatedAt := 0 }

/-! ### Operation traces over the store -/

/-- A mutating repository call together with the `time.Now()` values it
reads. -/
inductive Op where
  | opCreate (p : Patient) (t1 t2 : Nat)
  | opUpdate (p : Patient) (t : Nat)
  | opDelete (id : Int)

/-- Store state after one call (failed calls leave the map unchanged). -/
def stepOp (s : Store) : Op → Store
  | .opCreate p t1 t2 => createStep s p t1 t2
  | .opUpdate p t => updateStep s p t
  | .opDelete id => deleteStep s id

/-- Store state after a sequence of calls. -/
def run (s : Store) : List Op → Store
  | [] => s
  | op :: ops => run (stepOp s op) ops

/-- The `time.Now()` reads of one call, in order. -/
def opTimes : Op → List Nat
  | .opCreate _ t1 t2 => [t1, t2]
  | .opUpdate _ t => [t]
  | .opDelete _ => []

/-- All `time.Now()` reads of a call sequence, in order. -/
def traceTimes : List Op → List Nat
  | [] => []
  | op :: ops => opTimes op ++ traceTimes ops

/-- The clock assumption: a list of instants is non-decreasing and starts
no earlier than `lb` (Go's `time.Now()` is monotonic across calls). -/
def monoFrom (lb : Nat) : List Nat → Prop
  | [] => True
  | t :: ts => lb ≤ t ∧ monoFrom t ts

/-- The record keyed by `k` stays live (is never deleted) across every
intermediate state of a call sequence. -/
def liveThrough (k : String) (s : Store) : List Op → Prop
  | [] => True
  | op :: ops => (lookup (stepOp s op) k).isSome ∧ liveThrough k (stepOp s op) ops

/-! ### Lemmas about the store operations -/

theorem mem_insertByCreatedAt (a p : Patient) (l : List Patient) :
    a ∈ insertByCreatedAt p l ↔ a = p ∨ a ∈ l := by
  induction l with
  | nil => simp [insertByCreatedAt]
  | cons q qs ih =>
    simp only [insertByCreatedAt]
    split
    · simp [List.mem_cons]
    · simp only [List.mem_cons, ih]
      tauto

theorem mem_sortByCreatedAtDesc (a : Patient) (l : List Patient) :
    a ∈ sortByCreatedAtDesc l ↔ a ∈ l := by
  induction l with
  | nil => simp [sortByCreatedAtDesc]
  | cons p ps ih =>
    simp [sortByCreatedAtDesc, mem_insertByCreatedAt, ih]

theorem mem_eraseKey (e : String × Patient) (k : String) (s : Store) :
    e ∈ eraseKey k s ↔ e ∈ s ∧ e.1 ≠ k := by
  induction s with
  | nil => simp [eraseKey]
  | cons f fs ih =>
    simp only [eraseKey]
    split
    · next hf =>
      rw [ih]
      simp only [List.mem_cons]
      constructor
      · rintro ⟨h1, h2⟩
        exact ⟨Or.inr h1, h2⟩
      · rintro ⟨h1 | h1, h2⟩
        · subst h1; exact absurd hf h2
        · exact ⟨h1, h2⟩
    · next hf =>
      simp only [List.mem_cons, ih]
      constructor
      · rintro (rfl | ⟨h1, h2⟩)
        · exact ⟨Or.inl rfl, hf⟩
        · exact ⟨Or.inr h1, h2⟩
      · rintro ⟨rfl | h1, h2⟩
        · exact Or.inl rfl
        · exact Or.inr ⟨h1, h2⟩

theorem lookup_eraseKey_self (k : String) (s : Store) :
    lookup (eraseKey k s) k = none := by
  induction s with
  | nil => rfl
  | cons f fs ih =>
    simp only [eraseKey]
    split
    · exact ih
    · next hf => simp [lookup, hf, ih]

theorem lookup_eraseKey_ne (k' k : String) (s : Store) (h : k' ≠ k) :
    lookup (eraseKey k' s) k = lookup s k := by
  induction s with
  | nil => rfl
  | cons f fs ih =>
    show lookup (if f.1 = k' then eraseKey k' fs else f :: eraseKey k' fs) k =
      if f.1 = k then some f.2 else lookup fs k
    by_cases hf : f.1 = k'
    · rw [if_pos hf, ih, if_neg (by rw [hf]; exact h)]
    · rw [if_neg hf]
      show (if f.1 = k then some f.2 else lookup (eraseKey k' fs) k) = _
      by_cases hk : f.1 = k
      · rw [if_pos hk, if_pos hk]
      · rw [if_neg hk, if_neg hk, ih]

theorem lookup_setKey_self (k : String) (v : Patient) (s : Store) (p : Patient)
    (h : lookup s k = some p) : lookup (setKey k v s) k = some v := by
  induction s with
  | nil => exact Option.noConfusion h
  | cons f fs ih =>
    show lookup (if f.1 = k then (k, v) :: setKey k v fs else f :: setKey k v fs) k = some v
    by_cases hf : f.1 = k
    · rw [if_pos hf]
      show (if k = k then some v else lookup (setKey k v fs) k) = some v
      rw [if_pos rfl]
    · rw [if_neg hf]
      show (if f.1 = k then some f.2 else lookup (setKey k v fs) k) = some v
      rw [if_neg hf]
      have h' : lookup fs k = some p := by
        have hcons : (if f.1 = k then some f.2 else lookup fs k) = some p := h
        rwa [if_neg hf] at hcons
      exact ih h'

theorem lookup_setKey_ne (k' k : String) (v : Patient) (s : Store) (h : k' ≠ k) :
    lookup (setKey k' v s) k = lookup s k := by
  induction s with
  | nil => rfl
  | cons f fs ih =>
    show lookup (if f.1 = k' then (k', v) :: setKey k' v fs else f :: setKey k' v fs) k =
      if f.1 = k then some f.2 else lookup fs k
    by_cases hf : f.1 = k'
    · rw [if_pos hf]
      show (if k' = k then some v else lookup (setKey k' v fs) k) = _
      rw [if_neg h, ih, if_neg (by rw [hf]; exact h)]
    · rw [if_neg hf]
      show (if f.1 = k then some f.2 else lookup (setKey k' v fs) k) = _
      by_cases hk : f.1 = k
      · rw [if_pos hk, if_pos hk]
      · rw [if_neg hk, if_neg hk, ih]

theorem lookup_mem (s : Store) (k : String) (p : Patient)
    (h : lookup s k = some p) : (k, p) ∈ s := by
  induction s with
  | nil => simp [lookup] at h
  | cons f fs ih =>
    simp only [lookup] at h
    split at h
    · next hf =>
      cases h
      cases f
      simp_all
    · simp [List.mem_cons, ih h]

/-! ### Claim theorems -/

/-- C1: creating a record whose `hn` is already live yields
`alreadyExists` and leaves the store completely unchanged. -/
theorem create_existing_alreadyExists (s : Store) (r q : Patient) (t1 t2 : Nat)
    (h : lookup s r.hn = some q) :
    create s r t1 t2 = .error .alreadyExists ∧ createStep s r t1 t2 = s := by
  simp [create, createStep, h]

theorem create_existing_alreadyExists_witness :
    create storeA samplePatient 5 6 = .error .alreadyExists ∧
      createStep storeA samplePatient 5 6 = storeA :=
  create_existing_alreadyExists storeA samplePatient samplePatient 5 6 (by decide)

/-- C2: creating a record with a fresh canonical `hn` succeeds, stores the
record with only `createdAt`/`updatedAt` reassigned, makes it retrievable
by its surrogate id, and includes it in the listing. -/
theorem create_then_get (s : Store) (r : Patient) (n : Int) (t1 t2 : Nat)
    (hcanon : r.hn = hnKey n) (habs : lookup s r.hn = none) :
    ∃ s' q, create s r t1 t2 = .ok (s', q) ∧
      q = { r with createdAt := t1, updatedAt := t2 } ∧
      getByID s' n = .ok q ∧ q ∈ getAll s' := by
  refine ⟨(r.hn, { r with createdAt := t1, updatedAt := t2 }) :: s,
    { r with createdAt := t1, updatedAt := t2 }, ?_, rfl, ?_, ?_⟩
  · simp [create, habs]
  · simp [getByID, lookup, hcanon]
  · simp [getAll, mem_sortByCreatedAtDesc]

theorem create_then_get_witness :
    ∃ s' q, create [] patientB 3 4 = .ok (s', q) ∧
      q = { patientB with createdAt := 3, updatedAt := 4 } ∧
      getByID s' 5 = .ok q ∧ q ∈ getAll s' :=
  create_then_get [] patientB 5 3 4 (by decide) (by decide)

/-- C3: after a successful `delete(hn)` the record is gone from `get` and
from `list()`, and `delete` addressed at an absent `hn` returns
`notFound` and changes nothing. -/
theorem delete_get_semantics (s s' : Store) (id : Int) (hwf : Wf s) :
    (deleteByID s id = .ok s' →
      getByID s' id = .error .notFound ∧
        (getAll s').all (fun p => p.hn != hnKey id) = true) ∧
    (lookup s (hnKey id) = none →
      deleteByID s id = .error .notFound ∧ deleteStep s id = s) := by
  constructor
  · intro hok
    unfold deleteByID at hok
    split at hok
    · exact absurd hok (by simp)
    · next p hp =>
      rw [Except.ok.injEq] at hok
      subst hok
      constructor
      · simp [getByID, lookup_eraseKey_self]
      · rw [List.all_eq_true]
        intro q hq
        rw [getAll, mem_sortByCreatedAtDesc] at hq
        obtain ⟨e, he, rfl⟩ := List.mem_map.mp hq
        rw [mem_eraseKey] at he
        have hk := hwf e he.1
        simpa [bne_iff_ne, hk] using he.2
  · intro habs
    simp [deleteByID, deleteStep, habs]

/-! ### Lemmas about the hospital-number pipeline -/

theorem all_replicate_zero (n : Nat) :
    (List.replicate n '0').all Char.isDigit = true := by
  induction n with
  | zero => rfl
  | succ n ih => rw [List.replicate_succ, List.all_cons, ih]; rfl

theorem padZeros_all_isDigit (w : Nat) (l : List Char) :
    (padZeros w l).all Char.isDigit = l.all Char.isDigit := by
  rw [padZeros, List.all_append, all_replicate_zero, Bool.true_and]

theorem padZeros_length_of_le (w : Nat) (l : List Char) (h : l.length ≤ w) :
    (padZeros w l).length = w := by
  rw [padZeros, List.length_append, List.length_replicate]
  omega

theorem formatHNL_of_clean (l d : List Char) (h : prefixedClean l = 'H' :: 'N' :: d) :
    formatHNL l = 'H' :: 'N' :: d.take 6 := by
  unfold formatHNL
  rw [h]
  have hsw : startsWithL ('H' :: 'N' :: d) ['H', 'N'] = true := by simp [startsWithL]
  have hd : ('H' :: 'N' :: d).drop 2 = d := rfl
  rw [hsw, hd, if_pos rfl]
  by_cases hlen : d.length > 6
  · rw [if_pos hlen]
  · rw [if_neg hlen, List.take_of_length_le (by omega)]

theorem addLeadingZerosL_HN (e : List Char) (he : e.length ≤ 6) (hne : e ≠ []) :
    addLeadingZerosL ('H' :: 'N' :: e) = 'H' :: 'N' :: padZeros 6 e := by
  have hsw : startsWithL ('H' :: 'N' :: e) ['H', 'N'] = true := by simp [startsWithL]
  have hd : ('H' :: 'N' :: e).drop 2 = e := rfl
  unfold addLeadingZerosL
  rw [hsw, hd, if_neg (by simp)]
  by_cases h6 : e.length < 6
  · rw [if_pos ⟨List.length_pos.mpr hne, h6⟩]
  · rw [if_neg (by omega)]
    have h6' : e.length = 6 := by omega
    rw [padZeros, h6', Nat.sub_self, List.replicate_zero, List.nil_append]

theorem validHNL_cons (x : List Char) :
    validHNL ('H' :: 'N' :: x) = (decide (x.length = 6) && x.all Char.isDigit) := by
  have hsw : startsWithL ('H' :: 'N' :: x) ['H', 'N'] = true := by simp [startsWithL]
  have hd : ('H' :: 'N' :: x).drop 2 = x := rfl
  unfold validHNL
  rw [hsw, hd, Bool.true_and]

theorem validateHN_isValid (l : List Char) :
    (validateHN ⟨l⟩).isValid = validHNL l := by
  by_cases h : (⟨l⟩ : String) = ""
  · have hl : l = [] := congrArg String.data h
    subst hl
    decide
  · cases hb : validHNL l with
    | false => simp [validateHN, h, hb]
    | true => simp [validateHN, h, hb]

theorem parseHN_eq_core (raw : String) :
    parseHN raw =
      if validHNL (addLeadingZerosL (formatHNL raw.data)) = true then
        some ⟨addLeadingZerosL (formatHNL raw.data)⟩
      else none := by
  show (if (validateHN ⟨addLeadingZerosL (formatHNL raw.data)⟩).isValid = true then
      some (⟨addLeadingZerosL (formatHNL raw.data)⟩ : String) else none) = _
  rw [validateHN_isValid]

/-- C4 counterexample: the pipeline does not reject more than 6 digits
after the prefix (it truncates to the first 6 and accepts), and it strips
characters outside `[HN0-9]` rather than outside `[A-Z0-9]` (so `HNA1`,
which keeps its `A` and fails the claimed format under the claimed rule,
is in fact accepted). -/
theorem parseHN_counterexample :
    parseHN "HN1234567" = some "HN123456" ∧ parseHN "HNA1" = some "HN000001" := by
  constructor <;> decide

/-- C4 (amended): with `prefixedClean` the uppercased input stripped of
characters outside `[HN0-9]` and prefixed with `HN` when it starts with a
digit: when `prefixedClean` is `HN` followed by at least one character
whose first 6 are all digits, parsing accepts and returns `HN` plus those
first 6 characters left-padded with zeros to 6 digits; when no characters
follow `HN`, or a non-digit survives among the first 6, parsing rejects;
when `prefixedClean` does not start with `HN`, parsing rejects. -/
theorem parseHN_amended (raw : String) :
    (∀ d : List Char, prefixedClean raw.data = 'H' :: 'N' :: d →
      ((d ≠ [] ∧ (d.take 6).all Char.isDigit = true) →
        parseHN raw = some ⟨'H' :: 'N' :: padZeros 6 (d.take 6)⟩) ∧
      ((d = [] ∨ (d.take 6).all Char.isDigit = false) → parseHN raw = none)) ∧
    ((∀ d : List Char, prefixedClean raw.data ≠ 'H' :: 'N' :: d) →
      parseHN raw = none) := by
  constructor
  · intro d h
    have hf : formatHNL raw.data = 'H' :: 'N' :: d.take 6 :=
      formatHNL_of_clean raw.data d h
    have hle : (d.take 6).length ≤ 6 := List.length_take_le 6 d
    constructor
    · rintro ⟨hne, hdig⟩
      have hne6 : d.take 6 ≠ [] := by
        simpa [List.take_eq_nil_iff] using hne
      rw [parseHN_eq_core, hf, addLeadingZerosL_HN _ hle hne6, validHNL_cons,
        padZeros_length_of_le _ _ hle, padZeros_all_isDigit, hdig]
      simp
    · rintro (rfl | hdig)
      · rw [parseHN_eq_core, hf]
        have ha : addLeadingZerosL ('H' :: 'N' :: ([] : List Char).take 6) =
            ['H', 'N'] := by decide
        rw [ha]
        have hv : validHNL ['H', 'N'] = false := by decide
        rw [hv]
        simp
      · have hne6 : d.take 6 ≠ [] := by
          intro hnil
          rw [hnil] at hdig
          simp at hdig
        rw [parseHN_eq_core, hf, addLeadingZerosL_HN _ hle hne6, validHNL_cons,
          padZeros_all_isDigit, hdig]
        simp
  · intro hnot
    have hsw : startsWithL (prefixedClean raw.data) ['H', 'N'] = false := by
      cases hx : prefixedClean raw.data with
      | nil => rfl
      | cons c cs =>
        cases cs with
        | nil => simp [startsWithL]
        | cons c2 cs2 =>
          by_cases h1 : c = 'H'
          · by_cases h2 : c2 = 'N'
            · exact absurd (hx.trans (by rw [h1, h2])) (hnot cs2)
            · simp [startsWithL, h2]
          · simp [startsWithL, h1]
    have hf : formatHNL raw.data = prefixedClean raw.data := by
      unfold formatHNL
      rw [hsw]
      simp
    have ha : addLeadingZerosL (prefixedClean raw.data) = prefixedClean raw.data := by
      unfold addLeadingZerosL
      rw [hsw]
      simp
    have hv : validHNL (prefixedClean raw.data) = false := by
      unfold validHNL
      rw [hsw]
      simp
    rw [parseHN_eq_core, hf, ha, hv]
    simp

theorem parseHN_amended_witness :
    parseHN "HN12" = some "HN000012" ∧ parseHN "HN" = none ∧
      parseHN "@!" = none := by
  refine ⟨?_, ?_, ?_⟩
  · have h := ((parseHN_amended "HN12").1 ['1', '2'] (by decide)).1 ⟨by decide, by decide⟩
    exact h.trans (by decide)
  · exact ((parseHN_amended "HN").1 [] (by decide)).2 (Or.inl rfl)
  · refine (parseHN_amended "@!").2 ?_
    intro d hd
    have hempty : prefixedClean ("@!").data = [] := by decide
    rw [hempty] at hd
    exact List.noConfusion hd

theorem delete_get_semantics_witness :
    (getByID ([] : Store) 1 = .error .notFound ∧
      (getAll ([] : Store)).all (fun p => p.hn != hnKey 1) = true) ∧
    (deleteByID storeA 9 = .error .notFound ∧ deleteStep storeA 9 = storeA) :=
  ⟨(delete_get_semantics storeA [] 1 (by decide)).1 (by decide),
   (delete_get_semantics storeA storeA 9 (by decide)).2 (by decide)⟩

/-- C5: a create request whose `hn` went through the form pipeline on the
raw input `HN1` carries the normalized `hn` `HN000001`; on a store where
that key is free the create succeeds and `get` addressed by surrogate `1`
(the key `HN000001`) returns the stored record. -/
theorem create_normalizes_HN1 (s : Store) (r : Patient) (t1 t2 : Nat)
    (hr : r.hn = addLeadingZeros (formatHN "HN1"))
    (habs : lookup s "HN000001" = none) :
    r.hn = "HN000001" ∧
    ∃ s' q, create s r t1 t2 = .ok (s', q) ∧
      q = { r with createdAt := t1, updatedAt := t2 } ∧
      getByID s' 1 = .ok q := by
  have hn1 : addLeadingZeros (formatHN "HN1") = "HN000001" := by decide
  have hr' : r.hn = "HN000001" := hr.trans hn1
  have hkey : r.hn = hnKey 1 := hr'.trans (by decide)
  refine ⟨hr', (r.hn, { r with createdAt := t1, updatedAt := t2 }) :: s,
    { r with createdAt := t1, updatedAt := t2 }, ?_, rfl, ?_⟩
  · have habs' : lookup s r.hn = none := by rw [hr']; exact habs
    simp [create, habs']
  · simp [getByID, lookup, hkey]

theorem create_normalizes_HN1_witness :
    patientC.hn = "HN000001" ∧
    ∃ s' q, create [] patientC 7 8 = .ok (s', q) ∧
      q = { patientC with createdAt := 7, updatedAt := 8 } ∧
      getByID s' 1 = .ok q :=
  create_normalizes_HN1 [] patientC 7 8 (by decide) (by decide)

/-- C6: age validation rejects 0, every negative value and every value
above 150 (in particular 151), accepts 150, and flags every accepted
value above 100 (such as 120) with the advisory `warning` outcome. -/
theorem validateAge_thm :
    (validateAge 0).isValid = false ∧
    (∀ a : Int, a < 0 → (validateAge a).isValid = false) ∧
    (∀ a : Int, 150 < a → (validateAge a).isValid = false) ∧
    (validateAge 151).isValid = false ∧
    (validateAge 150).isValid = true ∧
    (∀ a : Int, 100 < a → a ≤ 150 →
      (validateAge a).isValid = true ∧ (validateAge a).type = .warning) := by
  refine ⟨by decide, ?_, ?_, by decide, by decide, ?_⟩
  · intro a ha
    unfold validateAge
    rw [if_neg (by omega), if_pos ha]
  · intro a ha
    unfold validateAge
    rw [if_neg (by omega), if_neg (by omega), if_pos ha]
  · intro a h1 h2
    unfold validateAge
    rw [if_neg (by omega), if_neg (by omega), if_neg (by omega), if_pos h1]
    exact ⟨rfl, rfl⟩

theorem validateAge_witness :
    (validateAge (-5)).isValid = false ∧ (validateAge 200).isValid = false ∧
      (validateAge 120).isValid = true ∧ (validateAge 120).type = .warning :=
  ⟨validateAge_thm.2.1 (-5) (by decide), validateAge_thm.2.2.1 200 (by decide),
   (validateAge_thm.2.2.2.2.2 120 (by decide) (by decide)).1,
   (validateAge_thm.2.2.2.2.2 120 (by decide) (by decide)).2⟩

/-- C7: phone validation on non-empty input, over the digits kept after
stripping non-digits: fewer than 9 or more than 12 digits rejects, a
10-digit number is accepted iff it starts with 06, 08 or 09, a 9-digit
number is accepted iff it starts with 0, 11- or 12-digit numbers are
rejected; and 0812345678 is accepted and formatted as 081-234-5678. -/
theorem validatePhone_thm :
    (∀ p : String, p ≠ "" →
      (((stripNonDigits p.data).length < 9 ∨ 12 < (stripNonDigits p.data).length) →
        (validatePhone p).isValid = false) ∧
      ((stripNonDigits p.data).length = 10 →
        ((validatePhone p).isValid = true ↔
          (startsWithL (stripNonDigits p.data) ['0', '6'] ||
            startsWithL (stripNonDigits p.data) ['0', '8'] ||
            startsWithL (stripNonDigits p.data) ['0', '9']) = true)) ∧
      ((stripNonDigits p.data).length = 9 →
        ((validatePhone p).isValid = true ↔
          startsWithL (stripNonDigits p.data) ['0'] = true)) ∧
      ((stripNonDigits p.data).length = 11 ∨ (stripNonDigits p.data).length = 12 →
        (validatePhone p).isValid = false)) ∧
    formatPhoneNumber "0812345678" = "081-234-5678" ∧
    (validatePhone "0812345678").isValid = true ∧
    (validatePhone "021234567").isValid = true ∧
    (validatePhone "1234567").isValid = false := by
  refine ⟨?_, by decide, by decide, by decide, by decide⟩
  intro p hp
  unfold validatePhone
  rw [if_neg hp]
  set d := stripNonDigits p.data with hd
  refine ⟨?_, ?_, ?_, ?_⟩
  · rintro (h | h)
    · rw [if_pos h]
    · rw [if_neg (by omega), if_pos (by omega)]
  · intro h10
    rw [if_neg (by omega), if_neg (by omega)]
    by_cases hm : (startsWithL d ['0', '6'] || startsWithL d ['0', '8'] ||
        startsWithL d ['0', '9']) = true
    · rw [if_pos ⟨h10, hm⟩]
      simp [hm]
    · rw [if_neg (fun hc => hm hc.2), if_neg (by rintro ⟨hc, _⟩; omega)]
      simp [hm]
  · intro h9
    rw [if_neg (by omega), if_neg (by omega), if_neg (by rintro ⟨hc, _⟩; omega)]
    by_cases hm : startsWithL d ['0'] = true
    · rw [if_pos ⟨h9, hm⟩]
      simp [hm]
    · rw [if_neg (by rintro ⟨_, hc⟩; exact hm hc)]
      simp [hm]
  · rintro (h | h) <;>
      rw [if_neg (by omega), if_neg (by omega), if_neg (by rintro ⟨hc, _⟩; omega),
        if_neg (by rintro ⟨hc, _⟩; omega)]

theorem validatePhone_witness :
    (validatePhone "12345").isValid = false ∧
      (validatePhone "99999999999").isValid = false :=
  ⟨(validatePhone_thm.1 "12345" (by decide)).1 (Or.inl (by decide)),
   (validatePhone_thm.1 "99999999999" (by decide)).2.2.2 (Or.inl (by decide))⟩

/-! ### Lemmas about operation traces -/

theorem lookup_cons (f : String × Patient) (fs : Store) (k : String) :
    lookup (f :: fs) k = if f.1 = k then some f.2 else lookup fs k := rfl

theorem monoFrom_mono (lb' lb : Nat) (ts : List Nat) (h : lb' ≤ lb)
    (hm : monoFrom lb ts) : monoFrom lb' ts := by
  cases ts with
  | nil => trivial
  | cons t ts => exact ⟨le_trans h hm.1, hm.2⟩

theorem monoFrom_append (lb : Nat) (ts us : List Nat)
    (h : monoFrom lb (ts ++ us)) : monoFrom lb us := by
  induction ts generalizing lb with
  | nil => exact h
  | cons t ts ih => exact monoFrom_mono lb t us h.1 (ih t h.2)

theorem lookup_stepOp (s : Store) (k : String) (p : Patient) (op : Op) (ts : List Nat)
    (hp : lookup s k = some p) (hm : monoFrom p.updatedAt (opTimes op ++ ts))
    (hlive : (lookup (stepOp s op) k).isSome = true) :
    ∃ q, lookup (stepOp s op) k = some q ∧ q.hn = p.hn ∧
      q.createdAt = p.createdAt ∧ p.updatedAt ≤ q.updatedAt ∧
      monoFrom q.updatedAt ts := by
  cases op with
  | opCreate r t1 t2 =>
    have hm' : monoFrom p.updatedAt ts := monoFrom_append _ [t1, t2] ts hm
    cases hl : lookup s r.hn with
    | some x =>
      have hs : stepOp s (.opCreate r t1 t2) = s := by
        simp [stepOp, createStep, create, hl]
      rw [hs]
      exact ⟨p, hp, rfl, rfl, le_refl _, hm'⟩
    | none =>
      have hs : stepOp s (.opCreate r t1 t2) =
          (r.hn, { r with createdAt := t1, updatedAt := t2 }) :: s := by
        simp [stepOp, createStep, create, hl]
      rw [hs]
      have hne : ¬ r.hn = k := by
        intro hc
        rw [hc] at hl
        rw [hl] at hp
        exact Option.noConfusion hp
      refine ⟨p, ?_, rfl, rfl, le_refl _, hm'⟩
      rw [lookup_cons, if_neg hne]
      exact hp
  | opUpdate r t =>
    cases hl : lookup s r.hn with
    | none =>
      have hs : stepOp s (.opUpdate r t) = s := by
        simp [stepOp, updateStep, update, hl]
      rw [hs]
      exact ⟨p, hp, rfl, rfl, le_refl _, monoFrom_append _ [t] ts hm⟩
    | some ex =>
      have hs : stepOp s (.opUpdate r t) = setKey r.hn (applyPatch ex r t) s := by
        simp [stepOp, updateStep, update, hl]
      rw [hs]
      by_cases hk : r.hn = k
      · subst hk
        have hexp : ex = p := Option.some.inj (hl.symm.trans hp)
        subst hexp
        exact ⟨applyPatch ex r t, lookup_setKey_self _ _ _ _ hl, rfl, rfl, hm.1, hm.2⟩
      · refine ⟨p, ?_, rfl, rfl, le_refl _, monoFrom_append _ [t] ts hm⟩
        rw [lookup_setKey_ne r.hn k _ s hk]
        exact hp
  | opDelete id =>
    cases hl : lookup s (hnKey id) with
    | none =>
      have hs : stepOp s (.opDelete id) = s := by
        simp [stepOp, deleteStep, deleteByID, hl]
      rw [hs]
      exact ⟨p, hp, rfl, rfl, le_refl _, hm⟩
    | some x =>
      have hs : stepOp s (.opDelete id) = eraseKey (hnKey id) s := by
        simp [stepOp, deleteStep, deleteByID, hl]
      rw [hs] at hlive ⊢
      by_cases hk : hnKey id = k
      · exfalso
        rw [hk, lookup_eraseKey_self] at hlive
        simp at hlive
      · refine ⟨p, ?_, rfl, rfl, le_refl _, hm⟩
        rw [lookup_eraseKey_ne _ _ s hk]
        exact hp

theorem run_preserves (ops : List Op) : ∀ (s : Store) (k : String) (p : Patient),
    lookup s k = some p → monoFrom p.updatedAt (traceTimes ops) →
    liveThrough k s ops →
    ∃ q, lookup (run s ops) k = some q ∧ q.hn = p.hn ∧
      q.createdAt = p.createdAt ∧ p.updatedAt ≤ q.updatedAt := by
  induction ops with
  | nil =>
    intro s k p hp _ _
    exact ⟨p, hp, rfl, rfl, le_refl _⟩
  | cons op ops ih =>
    intro s k p hp hm hlive
    obtain ⟨q, hq, hhn, hcr, hle, hm'⟩ :=
      lookup_stepOp s k p op (traceTimes ops) hp hm hlive.1
    obtain ⟨q', hq', hhn', hcr', hle'⟩ := ih (stepOp s op) k q hq hm' hlive.2
    exact ⟨q', hq', hhn'.trans hhn, hcr'.trans hcr, le_trans hle hle'⟩

/-- C8: along any call trace with a monotone clock during which a record
stays live, its `hn` and `createdAt` never change and `updatedAt` never
decreases; a successful `update` keeps `hn` and `createdAt`, replaces all
mutable fields from the patch, and sets `updatedAt` to the call's time; a
successful `create` stamps `createdAt` and `updatedAt` with its times. -/
theorem timestamps_invariant :
    (∀ (s : Store) (k : String) (p : Patient) (ops : List Op),
      lookup s k = some p → monoFrom p.updatedAt (traceTimes ops) →
      liveThrough k s ops →
      ∃ q, lookup (run s ops) k = some q ∧ q.hn = p.hn ∧
        q.createdAt = p.createdAt ∧ p.updatedAt ≤ q.updatedAt) ∧
    (∀ (s : Store) (r : Patient) (t : Nat) s2 q2, update s r t = .ok (s2, q2) →
      ∃ ex, lookup s r.hn = some ex ∧ q2 = applyPatch ex r t ∧
        lookup s2 r.hn = some q2 ∧ q2.hn = ex.hn ∧ q2.createdAt = ex.createdAt ∧
        q2.updatedAt = t ∧ q2.fullName = r.fullName ∧ q2.gender = r.gender ∧
        q2.nickname = r.nickname ∧ q2.phone = r.phone ∧ q2.age = r.age ∧
        q2.dateOfBirth = r.dateOfBirth ∧ q2.photo = r.photo) ∧
    (∀ (s : Store) (r : Patient) (t1 t2 : Nat) s2 q,
      create s r t1 t2 = .ok (s2, q) → q.createdAt = t1 ∧ q.updatedAt = t2) := by
  refine ⟨fun s k p ops hp hm hl => run_preserves ops s k p hp hm hl, ?_, ?_⟩
  · intro s r t s2 q2 hok
    unfold update at hok
    cases hl : lookup s r.hn with
    | none =>
      rw [hl] at hok
      exact absurd hok (by simp)
    | some ex =>
      rw [hl] at hok
      rw [Except.ok.injEq, Prod.mk.injEq] at hok
      obtain ⟨h1, h2⟩ := hok
      subst h1
      subst h2
      exact ⟨ex, rfl, rfl, lookup_setKey_self _ _ _ _ hl, rfl, rfl, rfl, rfl, rfl,
        rfl, rfl, rfl, rfl, rfl⟩
  · intro s r t1 t2 s2 q hok
    unfold create at hok
    cases hl : lookup s r.hn with
    | some x =>
      rw [hl] at hok
      exact absurd hok (by simp)
    | none =>
      rw [hl] at hok
      rw [Except.ok.injEq, Prod.mk.injEq] at hok
      obtain ⟨h1, h2⟩ := hok
      subst h2
      exact ⟨rfl, rfl⟩

theorem timestamps_invariant_witness :
    ∃ q, lookup (run storeA [Op.opUpdate patientC 5]) "HN000001" = some q ∧
      q.hn = samplePatient.hn ∧ q.createdAt = samplePatient.createdAt ∧
      samplePatient.updatedAt ≤ q.updatedAt :=
  timestamps_invariant.1 storeA "HN000001" samplePatient [Op.opUpdate patientC 5]
    (by decide) ⟨by decide, trivial⟩ ⟨by decide, trivial⟩

/-! ### Lemmas about the surrogate key format -/

theorem sprintf06_length (n : Int) : 6 ≤ (sprintf06 n).length := by
  unfold sprintf06
  by_cases h : n < 0
  · rw [if_pos h, List.length_cons, padZeros, List.length_append,
      List.length_replicate]
    omega
  · rw [if_neg h, padZeros, List.length_append, List.length_replicate]
    omega

theorem hnKey_ne_HN1 (n : Int) : hnKey n ≠ "HN1" := by
  intro h
  have hd : 'H' :: 'N' :: sprintf06 n = "HN1".data := congrArg String.data h
  have hlen := congrArg List.length hd
  rw [List.length_cons, List.length_cons] at hlen
  have h3 : ("HN1".data).length = 3 := rfl
  rw [h3] at hlen
  have := sprintf06_length n
  omega

/-- C10 counterexample: the claim's universal over non-canonical `hn`
fails. `HN1234567` is non-canonical (7 digits), yet `%06d` pads only to a
minimum width, so `fmt.Sprintf("HN%06d", 1234567)` is exactly
`HN1234567`: a record created verbatim under it IS returned by
`get(1234567)` and removed by `delete(1234567)`. -/
theorem nonCanonical_counterexample :
    hnKey 1234567 = "HN1234567" ∧
    create [] patientE 1 2 =
      .ok ([("HN1234567", { patientE with createdAt := 1, updatedAt := 2 })],
        { patientE with createdAt := 1, updatedAt := 2 }) ∧
    getByID [("HN1234567", { patientE with createdAt := 1, updatedAt := 2 })]
        1234567 = .ok { patientE with createdAt := 1, updatedAt := 2 } ∧
    deleteByID [("HN1234567", { patientE with createdAt := 1, updatedAt := 2 })]
        1234567 = .ok [] :=
  ⟨by decide, by decide, by decide, by decide⟩

/-- C10 (amended): `get` and `delete` address exactly the key
`HN` + `%06d`-formatted `n`; `create` stores the caller's `hn` string
verbatim without canonicalization; and for every `hn` outside the image
of that key format — such as `HN1`, whose digit part is shorter than the
minimum width 6 — a record under that `hn` is never returned by `get(n)`
and never removed by `delete(n)` for any `n`, and both operations return
`notFound` on a store holding only it. -/
theorem nonCanonical_unaddressable (s : Store) (n : Int) (h : String)
    (hwf : Wf s) (hout : ∀ m : Int, h ≠ hnKey m) :
    (∀ (r : Patient) (t1 t2 : Nat) s' q, create s r t1 t2 = .ok (s', q) →
      q.hn = r.hn) ∧
    (∀ p, getByID s n = .ok p → p.hn ≠ h) ∧
    lookup (deleteStep s n) h = lookup s h ∧
    (∀ (q : Patient), getByID [(h, q)] n = .error .notFound ∧
      deleteByID [(h, q)] n = .error .notFound) := by
  have hne : hnKey n ≠ h := fun hc => hout n hc.symm
  refine ⟨?_, ?_, ?_, ?_⟩
  · intro r t1 t2 s' q hok
    unfold create at hok
    cases hl : lookup s r.hn with
    | some x =>
      rw [hl] at hok
      exact absurd hok (by simp)
    | none =>
      rw [hl] at hok
      rw [Except.ok.injEq, Prod.mk.injEq] at hok
      obtain ⟨h1, h2⟩ := hok
      subst h2
      rfl
  · intro p hget
    unfold getByID at hget
    cases hl : lookup s (hnKey n) with
    | none =>
      rw [hl] at hget
      exact absurd hget (by simp)
    | some p' =>
      rw [hl] at hget
      rw [Except.ok.injEq] at hget
      subst hget
      have hmem := lookup_mem s (hnKey n) p' hl
      have hk := hwf _ hmem
      rw [hk]
      exact hne
  · unfold deleteStep deleteByID
    cases hl : lookup s (hnKey n) with
    | none => simp
    | some x =>
      simp only []
      exact lookup_eraseKey_ne (hnKey n) h s hne
  · intro q
    have hl : lookup [(h, q)] (hnKey n) = none := by
      rw [lookup_cons, if_neg (fun hc => hout n hc)]
      rfl
    constructor
    · unfold getByID
      rw [hl]
    · unfold deleteByID
      rw [hl]

theorem nonCanonical_unaddressable_witness :
    getByID [("HN1", samplePatient)] 1 = .error .notFound ∧
      deleteByID [("HN1", samplePatient)] 1 = .error .notFound :=
  (nonCanonical_unaddressable [] 1 "HN1" (by decide)
    (fun m hc => hnKey_ne_HN1 m hc.symm)).2.2.2 samplePatient

end Clinic

